import Mathlib

/-!
Verification development for the bnet-auth-export tool (src/main.rs).

The pure parts of the program (string normalisation, hex decoding, Base32
encoding, URI assembly, body truncation) are embedded directly.  The HTTP
layer is embedded by passing the network response explicitly: an
`HttpResponse` carries the status code, the content-type header (the empty
string models an absent or unreadable header, matching
`unwrap_or_default`) and the body text, and `Option HttpResponse` models a
send that may fail at the transport level (`none`).  JSON deserialisation
is generic in the Rust source (`T: DeserializeOwned`), so it is embedded as
an explicit `parse : String → Option T` argument.
-/

namespace BnetAuthExport

/-- Whitespace predicate of Rust `char::is_whitespace` (the Unicode
White_Space property), used by `str::trim`. -/
def rustIsWhitespace (c : Char) : Bool :=
  let n := c.toNat
  (decide (9 ≤ n) && decide (n ≤ 13)) || decide (n = 32) || decide (n = 133) ||
    decide (n = 160) || decide (n = 5760) ||
    (decide (8192 ≤ n) && decide (n ≤ 8202)) || decide (n = 8232) ||
    decide (n = 8233) || decide (n = 8239) || decide (n = 8287) ||
    decide (n = 12288)

/-- Rust `str::trim` on a list of characters: drop whitespace from both ends. -/
def rustTrimList (l : List Char) : List Char :=
  ((l.dropWhile rustIsWhitespace).reverse.dropWhile rustIsWhitespace).reverse

/-- Rust `str::trim`. -/
def rustTrim (s : String) : String :=
  String.mk (rustTrimList s.toList)

/-- Value of a single hex digit, as in the `hex` crate: `0-9`, `a-f`, `A-F`. -/
def hexDigitVal (c : Char) : Option Nat :=
  if 48 ≤ c.toNat ∧ c.toNat ≤ 57 then some (c.toNat - 48)
  else if 97 ≤ c.toNat ∧ c.toNat ≤ 102 then some (c.toNat - 97 + 10)
  else if 65 ≤ c.toNat ∧ c.toNat ≤ 70 then some (c.toNat - 65 + 10)
  else none

/-- Model of `hex::decode`: pairs of hex digits become bytes; odd length or a
non-hex character yields `none`. -/
def hexDecodeList : List Char → Option (List Nat)
  | [] => some []
  | [_] => none
  | hi :: lo :: rest =>
    match hexDigitVal hi, hexDigitVal lo, hexDecodeList rest with
    | some h, some l, some bs => some ((16 * h + l) :: bs)
    | _, _, _ => none

/-- Value of a bit string, most significant bit first. -/
def bitsToNat : List Bool → Nat
  | [] => 0
  | b :: bs => (if b then 1 else 0) * 2 ^ bs.length + bitsToNat bs

/-- The `w`-bit binary expansion of `n`, most significant bit first
(faithful for `n < 2 ^ w`). -/
def natToBits : Nat → Nat → List Bool
  | 0, _ => []
  | w + 1, n => decide (n / 2 ^ w = 1) :: natToBits w (n % 2 ^ w)

/-- Bit stream of a byte sequence, each byte most significant bit first. -/
def bytesToBits : List Nat → List Bool
  | [] => []
  | b :: bs => natToBits 8 b ++ bytesToBits bs

/-- Zero-pad a bit string at the end up to a multiple of five bits, as
RFC 4648 Base32 encoding does for the final quantum. -/
def padBits (bits : List Bool) : List Bool :=
  bits ++ List.replicate ((5 - bits.length % 5) % 5) false

/-- Split a bit string into consecutive 5-bit values (a trailing fragment of
fewer than five bits is dropped; inputs are always padded first). -/
def chunks5 : List Bool → List Nat
  | b1 :: b2 :: b3 :: b4 :: b5 :: rest =>
    bitsToNat [b1, b2, b3, b4, b5] :: chunks5 rest
  | _ => []

/-- Regroup a bit string into bytes, dropping a trailing fragment of fewer
than eight bits, as RFC 4648 Base32 decoding does. -/
def bits8ToBytes : List Bool → List Nat
  | b1 :: b2 :: b3 :: b4 :: b5 :: b6 :: b7 :: b8 :: rest =>
    bitsToNat [b1, b2, b3, b4, b5, b6, b7, b8] :: bits8ToBytes rest
  | _ => []

/-- The RFC 4648 Base32 alphabet (uppercase), as in
`data_encoding::BASE32_NOPAD`. -/
def base32Alphabet : String := "ABCDEFGHIJKLMNOPQRSTUVWXYZ234567"

/-- Symbol for a 5-bit value. -/
def valToChar (v : Nat) : Char :=
  base32Alphabet.toList.getD v (Char.ofNat 65)

/-- Index of a symbol in the Base32 alphabet. -/
def charToVal (c : Char) : Option Nat :=
  base32Alphabet.toList.findIdx? (fun a => a == c)

/-- Model of `data_encoding::BASE32_NOPAD.encode`: uppercase RFC 4648
Base32, no padding characters. -/
def base32EncodeBytes (bytes : List Nat) : String :=
  String.mk ((chunks5 (padBits (bytesToBits bytes))).map valToChar)

/-- Spec-side RFC 4648 Base32 decoder (the inverse direction named by the
round-trip property): map each symbol back to its 5-bit value and regroup
the bit stream into bytes. -/
def charsToVals : List Char → Option (List Nat)
  | [] => some []
  | c :: cs =>
    match charToVal c, charsToVals cs with
    | some v, some vs => some (v :: vs)
    | _, _ => none

/-- Spec-side RFC 4648 Base32 decoding of an unpadded string. -/
def base32DecodeChars (s : String) : Option (List Nat) :=
  match charsToVals s.toList with
  | some vs => some (bits8ToBytes (vs.flatMap (natToBits 5)))
  | none => none

/-- Model of `hex_to_base32_nopad_upper` (src/main.rs lines 184-187). -/
def hex_to_base32_nopad_upper (hexSecret : String) : Except String String :=
  match hexDecodeList (rustTrim hexSecret).toList with
  | some bytes => Except.ok (base32EncodeBytes bytes)
  | none => Except.error "deviceSecret is not valid hex"

/-- Model of `build_otpauth_uri` (src/main.rs lines 189-193). -/
def build_otpauth_uri (serial : String) (base32Secret : String) : String :=
  "otpauth://totp/Battle.net:" ++ serial ++ "?secret=" ++ base32Secret ++
    "&issuer=Battle.net&digits=8&algorithm=SHA1&period=30"

/-- Model of `truncate` (src/main.rs lines 207-209): keep the first
`maxChars` characters. -/
def truncate (text : String) (maxChars : Nat) : String :=
  String.mk (text.toList.take maxChars)

/-- Model of `str::strip_prefix`: the remainder after a literal leading
pattern, or `none` when the pattern does not lead. -/
def stripLeading (pat : List Char) : List Char → Option (List Char) :=
  fun l =>
    match pat, l with
    | [], rest => some rest
    | _ :: _, [] => none
    | a :: ps, b :: ls =>
      if a = b then stripLeading ps ls else none

/-- Model of `normalize_session_token` (src/main.rs lines 174-182): trim,
strip one leading ST= or st= (trying ST= first), trim again. -/
def normalize_session_token (input : String) : String :=
  let trimmed := rustTrimList input.toList
  let stripped :=
    match stripLeading ("ST=".toList) trimmed with
    | some r => r
    | none =>
      match stripLeading ("st=".toList) trimmed with
      | some r => r
      | none => trimmed
  String.mk (rustTrimList stripped)

/-- Error taxonomy of the two exchange operations, mirroring the distinct
`bail!`/`context` sites in src/main.rs. -/
inductive ApiError where
  | transport (msg : String)
  | httpStatus (label : String) (status : Nat) (body : String)
  | nonJson (label : String) (contentType : String) (body : String)
  | parseFailure (label : String)
  | missingField (msg : String)
  | precondition (msg : String)
  deriving DecidableEq

/-- An HTTP response as observed by `parse_json_response`: status code,
content-type header (the empty string models an absent or unreadable
header, as in `unwrap_or_default`) and body text. -/
structure HttpResponse where
  status : Nat
  contentType : String
  body : String
  deriving DecidableEq

/-- Wire shape of the SSO endpoint response (src/main.rs lines 27-30). -/
structure SsoResponse where
  access_token : Option String
  deriving DecidableEq

/-- Wire shape of the restore endpoint response (src/main.rs lines 39-43). -/
structure RestoreResponse where
  device_secret : Option String
  deriving DecidableEq

/-- Model of `reqwest::StatusCode::is_success`: 2xx. -/
def statusIsSuccess (status : Nat) : Bool :=
  decide (200 ≤ status) && decide (status < 300)

/-- ASCII lowercasing of one character, as in `str::to_ascii_lowercase`. -/
def asciiLower (c : Char) : Char :=
  if 65 ≤ c.toNat ∧ c.toNat ≤ 90 then Char.ofNat (c.toNat + 32) else c

/-- Substring test on character lists, as in Rust `str::contains`. -/
def containsSub (needle : List Char) : List Char → Bool
  | [] => needle.isEmpty
  | c :: t => needle.isPrefixOf (c :: t) || containsSub needle t

/-- Model of `is_json_content_type` (src/main.rs lines 162-164). -/
def is_json_content_type (contentType : String) : Bool :=
  containsSub ("json".toList) (contentType.toList.map asciiLower)

/-- Model of `display_content_type` (src/main.rs lines 166-172). -/
def display_content_type (contentType : String) : String :=
  if contentType = "" then "(missing)" else contentType

/-- Model of `parse_json_response` (src/main.rs lines 130-160).  The serde
deserialiser of the generic `T: DeserializeOwned` is the explicit `parse`
argument. -/
def parse_json_response {T : Type} (parse : String → Option T)
    (response : HttpResponse) (label : String) (bodyLimit : Nat) :
    Except ApiError T :=
  if statusIsSuccess response.status = false then
    Except.error (ApiError.httpStatus label response.status
      (truncate response.body bodyLimit))
  else if is_json_content_type response.contentType = false then
    Except.error (ApiError.nonJson label
      (display_content_type response.contentType)
      (truncate response.body bodyLimit))
  else
    match parse response.body with
    | some value => Except.ok value
    | none => Except.error (ApiError.parseFailure label)

/-- Model of `.as_deref().map(str::trim).filter(not empty)` applied to an
optional response field (src/main.rs lines 83-88 and 113-118). -/
def trimmedNonEmpty (field : Option String) : Option String :=
  match field with
  | none => none
  | some value =>
    let t := rustTrim value
    if t = "" then none else some t

/-- Model of `exchange_session_token` (src/main.rs lines 62-92).  The state
is the `bearer_token` field of `ApiClient`; `net` is the outcome of the
send (`none` is a transport failure).  The result pairs the returned
`Result<()>` with the new `bearer_token` field. -/
def exchange_session_token (parse : String → Option SsoResponse)
    (bearer_token : Option String) (net : Option HttpResponse) :
    Except ApiError Unit × Option String :=
  match net with
  | none =>
    (Except.error
      (ApiError.transport "request failed for Battle.net SSO token exchange"),
     bearer_token)
  | some response =>
    match parse_json_response parse response "SSO token exchange" 500 with
    | Except.error e => (Except.error e, bearer_token)
    | Except.ok parsed =>
      match trimmedNonEmpty parsed.access_token with
      | none =>
        (Except.error
          (ApiError.missingField "SSO response did not include access_token"),
         bearer_token)
      | some token => (Except.ok (), some token)

/-- The authenticator REST base URL (src/main.rs lines 10-11). -/
def AUTH_BASE_URL : String :=
  "https://authenticator-rest-api.bnet-identity.blizzard.net/v1/authenticator"

/-- One outgoing restore request as built by `restore_device_secret` and
`authorized_post` (src/main.rs lines 100-110, 123-127). -/
structure RestoreCall where
  url : String
  authorizationHeader : String
  serial : String
  restoreCode : String
  deriving DecidableEq

/-- Model of `restore_device_secret` (src/main.rs lines 94-121).  The second
component lists the network requests the call issues, so that the
fail-fast precondition check (which precedes building the request) is
observable. -/
def restore_device_secret (parse : String → Option RestoreResponse)
    (bearer_token : Option String) (serial restoreCode : String)
    (net : Option HttpResponse) :
    Except ApiError String × List RestoreCall :=
  match bearer_token with
  | none =>
    (Except.error
      (ApiError.precondition
        "bearer token not set; SSO token exchange must run first"),
     [])
  | some bearer =>
    let url := AUTH_BASE_URL ++ "/device"
    let call : RestoreCall :=
      { url := url, authorizationHeader := "Bearer " ++ bearer,
        serial := serial, restoreCode := restoreCode }
    match net with
    | none =>
      (Except.error (ApiError.transport ("request failed for " ++ url)),
       [call])
    | some response =>
      match parse_json_response parse response "restore request" 1000 with
      | Except.error e => (Except.error e, [call])
      | Except.ok parsed =>
        match trimmedNonEmpty parsed.device_secret with
        | none =>
          (Except.error
            (ApiError.missingField "restore response missing deviceSecret"),
           [call])
        | some secret => (Except.ok secret, [call])

/-! ### Helper lemmas: trimming and hex decoding -/

theorem dropWhile_of_all_false {p : Char → Bool} :
    ∀ l : List Char, (∀ c ∈ l, p c = false) → l.dropWhile p = l := by
  intro l h
  cases l with
  | nil => rfl
  | cons a t =>
    simp [List.dropWhile, h a (List.mem_cons_self a t)]

theorem rustTrimList_eq_self (l : List Char)
    (h : ∀ c ∈ l, rustIsWhitespace c = false) : rustTrimList l = l := by
  unfold rustTrimList
  rw [dropWhile_of_all_false l h,
    dropWhile_of_all_false l.reverse (fun c hc => h c (List.mem_reverse.mp hc)),
    List.reverse_reverse]

theorem hexDigitVal_ranges (c : Char) (h : (hexDigitVal c).isSome = true) :
    (48 ≤ c.toNat ∧ c.toNat ≤ 57) ∨ (97 ≤ c.toNat ∧ c.toNat ≤ 102) ∨
      (65 ≤ c.toNat ∧ c.toNat ≤ 70) := by
  unfold hexDigitVal at h
  split_ifs at h with h1 h2 h3
  · exact Or.inl h1
  · exact Or.inr (Or.inl h2)
  · exact Or.inr (Or.inr h3)
  · simp at h

theorem hexDigit_not_whitespace (c : Char)
    (h : (hexDigitVal c).isSome = true) : rustIsWhitespace c = false := by
  have hr := hexDigitVal_ranges c h
  simp only [rustIsWhitespace, Bool.or_eq_false_iff, Bool.and_eq_false_iff,
    decide_eq_false_iff_not]
  omega

theorem hexDigitVal_lt (c : Char) (v : Nat) (h : hexDigitVal c = some v) :
    v < 16 := by
  unfold hexDigitVal at h
  split_ifs at h with h1 h2 h3 <;> simp_all <;> omega

theorem hexDecodeList_ok :
    ∀ (n : Nat) (l : List Char), l.length ≤ n → l.length % 2 = 0 →
      (∀ c ∈ l, (hexDigitVal c).isSome = true) →
      ∃ bytes, hexDecodeList l = some bytes ∧ ∀ b ∈ bytes, b < 256 := by
  intro n
  induction n with
  | zero =>
    intro l hn _ _
    have : l = [] := List.eq_nil_of_length_eq_zero (Nat.le_zero.mp hn)
    subst this
    exact ⟨[], rfl, by simp⟩
  | succ n ih =>
    intro l hn hev hall
    match l with
    | [] => exact ⟨[], rfl, by simp⟩
    | [c] => simp at hev
    | hi :: lo :: rest =>
      have hhi := hall hi (by simp)
      have hlo := hall lo (by simp)
      obtain ⟨h, hh⟩ := Option.isSome_iff_exists.mp hhi
      obtain ⟨lv, hl⟩ := Option.isSome_iff_exists.mp hlo
      have hrest : rest.length ≤ n := by
        simp only [List.length_cons] at hn; omega
      have hrev : rest.length % 2 = 0 := by
        simp only [List.length_cons] at hev; omega
      obtain ⟨bs, hbs, hblt⟩ :=
        ih rest hrest hrev (fun c hc => hall c (by simp [hc]))
      refine ⟨(16 * h + lv) :: bs, ?_, ?_⟩
      · simp [hexDecodeList, hh, hl, hbs]
      · intro b hb
        rcases List.mem_cons.mp hb with hb | hb
        · have := hexDigitVal_lt hi h hh
          have := hexDigitVal_lt lo lv hl
          omega
        · exact hblt b hb

theorem hexDecodeList_fails :
    ∀ (n : Nat) (l : List Char), l.length ≤ n →
      (l.length % 2 = 1 ∨ ∃ c ∈ l, hexDigitVal c = none) →
      hexDecodeList l = none := by
  intro n
  induction n with
  | zero =>
    intro l hn h
    have : l = [] := List.eq_nil_of_length_eq_zero (Nat.le_zero.mp hn)
    subst this
    rcases h with h | ⟨c, hc, _⟩
    · simp at h
    · simp at hc
  | succ n ih =>
    intro l hn h
    match l with
    | [] =>
      rcases h with h | ⟨c, hc, _⟩
      · simp at h
      · simp at hc
    | [c] => rfl
    | hi :: lo :: rest =>
      have hrest : rest.length ≤ n := by
        simp only [List.length_cons] at hn
        omega
      cases hhi : hexDigitVal hi with
      | none => simp [hexDecodeList, hhi]
      | some hv =>
        cases hlo : hexDigitVal lo with
        | none => simp [hexDecodeList, hhi, hlo]
        | some lv =>
          have hr : hexDecodeList rest = none := by
            apply ih rest hrest
            rcases h with h | ⟨c, hc, hcn⟩
            · left
              simp only [List.length_cons] at h
              omega
            · right
              rcases List.mem_cons.mp hc with h1 | hc2
              · subst h1
                rw [hcn] at hhi
                exact Option.noConfusion hhi
              · rcases List.mem_cons.mp hc2 with h1 | hc3
                · subst h1
                  rw [hcn] at hlo
                  exact Option.noConfusion hlo
                · exact ⟨c, hc3, hcn⟩
          simp [hexDecodeList, hhi, hlo, hr]

/-! ### Helper lemmas: bit strings and Base32 -/

theorem natToBits_length : ∀ (w n : Nat), (natToBits w n).length = w := by
  intro w
  induction w with
  | zero => intro n; rfl
  | succ w ih => intro n; simp [natToBits, ih]

theorem bitsToNat_lt : ∀ l : List Bool, bitsToNat l < 2 ^ l.length := by
  intro l
  induction l with
  | nil => simp [bitsToNat]
  | cons b t ih =>
    simp only [bitsToNat, List.length_cons, pow_succ]
    cases b <;> simp <;> omega

theorem bitsToNat_natToBits :
    ∀ (w n : Nat), n < 2 ^ w → bitsToNat (natToBits w n) = n := by
  intro w
  induction w with
  | zero =>
    intro n hn
    simp only [pow_zero, Nat.lt_one_iff] at hn
    simp [natToBits, bitsToNat, hn]
  | succ w ih =>
    intro n hn
    have hmod : n % 2 ^ w < 2 ^ w := Nat.mod_lt n (Nat.pos_pow_of_pos w (by omega))
    have hdm := Nat.div_add_mod n (2 ^ w)
    have hdiv : n / 2 ^ w < 2 := by
      rw [Nat.div_lt_iff_lt_mul (Nat.pos_pow_of_pos w (by omega))]
      rw [pow_succ] at hn
      omega
    simp only [natToBits, bitsToNat, natToBits_length, ih (n % 2 ^ w) hmod]
    by_cases hq : n / 2 ^ w = 1
    · rw [hq] at hdm
      have hd : decide (n / 2 ^ w = 1) = true := decide_eq_true hq
      rw [hd, if_pos rfl]
      omega
    · have hq0 : n / 2 ^ w = 0 := by
        rcases Nat.lt_one_iff.mp (lt_of_le_of_ne (Nat.le_of_lt_succ hdiv)
          hq) with h
        exact h
      rw [hq0] at hdm
      have hd : decide (n / 2 ^ w = 1) = false := decide_eq_false hq
      rw [hd, if_neg Bool.false_ne_true]
      omega

theorem natToBits_bitsToNat :
    ∀ l : List Bool, natToBits l.length (bitsToNat l) = l := by
  intro l
  induction l with
  | nil => rfl
  | cons b t ih =>
    have hlt := bitsToNat_lt t
    have hpos : 0 < 2 ^ t.length := Nat.pos_pow_of_pos t.length (by omega)
    simp only [List.length_cons, natToBits, bitsToNat]
    cases b
    · simp only [if_neg Bool.false_ne_true, Nat.zero_mul, Nat.zero_add]
      rw [Nat.div_eq_of_lt hlt, Nat.mod_eq_of_lt hlt]
      simp [ih]
    · simp only [if_pos rfl, Nat.one_mul]
      have hdiv : (2 ^ t.length + bitsToNat t) / 2 ^ t.length = 1 := by
        rw [Nat.add_div_left _ hpos, Nat.div_eq_of_lt hlt]
      have hmod : (2 ^ t.length + bitsToNat t) % 2 ^ t.length = bitsToNat t := by
        rw [Nat.add_mod_left, Nat.mod_eq_of_lt hlt]
      simp [hdiv, hmod, ih]

theorem chunks5_append (l rest : List Bool) (h : l.length = 5) :
    chunks5 (l ++ rest) = bitsToNat l :: chunks5 rest := by
  rcases l with _ | ⟨b1, _ | ⟨b2, _ | ⟨b3, _ | ⟨b4, _ | ⟨b5, _ | ⟨b6, l⟩⟩⟩⟩⟩⟩ <;>
    first
      | rfl
      | (exfalso
         simp only [List.length_cons, List.length_nil] at h
         omega)

theorem chunks5_short (l : List Bool) (h : l.length < 5) : chunks5 l = [] := by
  rcases l with _ | ⟨b1, _ | ⟨b2, _ | ⟨b3, _ | ⟨b4, _ | ⟨b5, l⟩⟩⟩⟩⟩ <;>
    first
      | rfl
      | (exfalso
         simp only [List.length_cons, List.length_nil] at h
         omega)

theorem bits8_short (l : List Bool) (h : l.length < 8) : bits8ToBytes l = [] := by
  rcases l with _ | ⟨b1, _ | ⟨b2, _ | ⟨b3, _ | ⟨b4, _ | ⟨b5, _ | ⟨b6, _ |
    ⟨b7, _ | ⟨b8, l⟩⟩⟩⟩⟩⟩⟩⟩ <;>
    first
      | rfl
      | (exfalso
         simp only [List.length_cons, List.length_nil] at h
         omega)

theorem bits8_append (l rest : List Bool) (h : l.length = 8) :
    bits8ToBytes (l ++ rest) = bitsToNat l :: bits8ToBytes rest := by
  rcases l with _ | ⟨b1, _ | ⟨b2, _ | ⟨b3, _ | ⟨b4, _ | ⟨b5, _ | ⟨b6, _ |
    ⟨b7, _ | ⟨b8, _ | ⟨b9, l⟩⟩⟩⟩⟩⟩⟩⟩⟩ <;>
    first
      | rfl
      | (exfalso
         simp only [List.length_cons, List.length_nil] at h
         omega)

theorem chunks5_flat :
    ∀ (n : Nat) (l : List Bool), l.length ≤ n → l.length % 5 = 0 →
      (chunks5 l).flatMap (natToBits 5) = l := by
  intro n
  induction n with
  | zero =>
    intro l hn _
    have he : l = [] := List.eq_nil_of_length_eq_zero (Nat.le_zero.mp hn)
    subst he
    rfl
  | succ n ih =>
    intro l hn h5
    by_cases hlen : l.length < 5
    · have h0 : l.length = 0 := by omega
      have he : l = [] := List.eq_nil_of_length_eq_zero h0
      subst he
      rfl
    · push_neg at hlen
      have htake : (l.take 5).length = 5 := by
        rw [List.length_take]
        omega
      have hsplit := (List.take_append_drop 5 l).symm
      rw [hsplit, chunks5_append _ _ htake]
      have h1 : natToBits 5 (bitsToNat (l.take 5)) = l.take 5 := by
        have h2 := natToBits_bitsToNat (l.take 5)
        rw [htake] at h2
        exact h2
      rw [List.flatMap_cons, h1,
        ih (l.drop 5) (by rw [List.length_drop]; omega)
          (by rw [List.length_drop]; omega)]

theorem chunks5_lt :
    ∀ (n : Nat) (l : List Bool), l.length ≤ n → ∀ v ∈ chunks5 l, v < 32 := by
  intro n
  induction n with
  | zero =>
    intro l hn v hv
    have he : l = [] := List.eq_nil_of_length_eq_zero (Nat.le_zero.mp hn)
    subst he
    simp [chunks5] at hv
  | succ n ih =>
    intro l hn v hv
    by_cases hlen : l.length < 5
    · rw [chunks5_short l hlen] at hv
      simp at hv
    · push_neg at hlen
      have htake : (l.take 5).length = 5 := by
        rw [List.length_take]
        omega
      rw [← List.take_append_drop 5 l, chunks5_append _ _ htake] at hv
      rcases List.mem_cons.mp hv with h1 | hv2
      · subst h1
        have h2 := bitsToNat_lt (l.take 5)
        rw [htake] at h2
        exact h2
      · exact ih (l.drop 5) (by rw [List.length_drop]; omega) v hv2

theorem bits8ToBytes_bytesToBits :
    ∀ (bytes : List Nat) (extra : List Bool), (∀ b ∈ bytes, b < 256) →
      extra.length < 8 → bits8ToBytes (bytesToBits bytes ++ extra) = bytes := by
  intro bytes
  induction bytes with
  | nil =>
    intro extra _ hx
    simpa using bits8_short extra hx
  | cons b bs ih =>
    intro extra hall hx
    have h8 := natToBits_length 8 b
    have hsp : bytesToBits (b :: bs) ++ extra =
        natToBits 8 b ++ (bytesToBits bs ++ extra) := by
      simp [bytesToBits, List.append_assoc]
    rw [hsp, bits8_append _ _ h8,
      bitsToNat_natToBits 8 b (hall b (List.mem_cons_self b bs)),
      ih extra (fun x hxm => hall x (List.mem_cons_of_mem b hxm)) hx]

theorem charToVal_valToChar : ∀ v : Nat, v < 32 → charToVal (valToChar v) = some v := by
  decide

theorem valToChar_mem : ∀ v : Nat, v < 32 → valToChar v ∈ base32Alphabet.toList := by
  decide

theorem charsToVals_map :
    ∀ vs : List Nat, (∀ v ∈ vs, v < 32) → charsToVals (vs.map valToChar) = some vs := by
  intro vs
  induction vs with
  | nil => intro _; rfl
  | cons v t ih =>
    intro h
    simp only [List.map_cons, charsToVals]
    rw [charToVal_valToChar v (h v (List.mem_cons_self v t)),
      ih (fun x hx => h x (List.mem_cons_of_mem v hx))]

theorem padBits_mod (l : List Bool) : (padBits l).length % 5 = 0 := by
  simp only [padBits, List.length_append, List.length_replicate]
  omega

theorem padBits_spec (l : List Bool) :
    ∃ k, padBits l = l ++ List.replicate k false ∧ k < 5 :=
  ⟨(5 - l.length % 5) % 5, rfl, by omega⟩

theorem base32_roundTrip (bytes : List Nat) (hb : ∀ b ∈ bytes, b < 256) :
    base32DecodeChars (base32EncodeBytes bytes) = some bytes := by
  unfold base32EncodeBytes base32DecodeChars
  have hchars :
      (String.mk ((chunks5 (padBits (bytesToBits bytes))).map valToChar)).toList
        = (chunks5 (padBits (bytesToBits bytes))).map valToChar := rfl
  rw [hchars,
    charsToVals_map _
      (fun v hv => chunks5_lt (padBits (bytesToBits bytes)).length _ le_rfl v hv)]
  show some (bits8ToBytes
      ((chunks5 (padBits (bytesToBits bytes))).flatMap (natToBits 5)))
    = some bytes
  rw [chunks5_flat (padBits (bytesToBits bytes)).length _ le_rfl (padBits_mod _)]
  obtain ⟨k, hpk, hk⟩ := padBits_spec (bytesToBits bytes)
  rw [hpk, bits8ToBytes_bytesToBits bytes _ hb
    (by simp only [List.length_replicate]; omega)]

theorem base32Encode_chars (bytes : List Nat) :
    ∀ c ∈ (base32EncodeBytes bytes).toList, c ∈ base32Alphabet.toList := by
  intro c hc
  have he : (base32EncodeBytes bytes).toList
      = (chunks5 (padBits (bytesToBits bytes))).map valToChar := rfl
  rw [he] at hc
  obtain ⟨v, hv, rfl⟩ := List.mem_map.mp hc
  exact valToChar_mem v (chunks5_lt _ _ le_rfl v hv)

theorem stringMk_toList (s : String) : String.mk s.toList = s := rfl

theorem dropWhile_idem {p : Char → Bool} :
    ∀ l : List Char, (l.dropWhile p).dropWhile p = l.dropWhile p := by
  intro l
  induction l with
  | nil => rfl
  | cons a t ih =>
    by_cases hp : p a = true
    · rw [List.dropWhile_cons, if_pos hp]
      exact ih
    · rw [List.dropWhile_cons, if_neg hp, List.dropWhile_cons, if_neg hp]

theorem dropWhile_suffix {p : Char → Bool} :
    ∀ l : List Char, ∃ k, l.dropWhile p = l.drop k := by
  intro l
  induction l with
  | nil => exact ⟨0, rfl⟩
  | cons a t ih =>
    by_cases hp : p a = true
    · obtain ⟨k, hk⟩ := ih
      exact ⟨k + 1, by rw [List.dropWhile_cons, if_pos hp, hk]; rfl⟩
    · exact ⟨0, by rw [List.dropWhile_cons, if_neg hp, List.drop_zero]⟩

theorem dropWhile_take_stable {p : Char → Bool} (l : List Char)
    (h : l.dropWhile p = l) (m : Nat) : (l.take m).dropWhile p = l.take m := by
  cases l with
  | nil => simp
  | cons a t =>
    have hp : p a = false := by
      cases hpa : p a with
      | false => rfl
      | true =>
        rw [List.dropWhile_cons, if_pos hpa] at h
        have hle := (List.dropWhile_sublist (l := t) p).length_le
        rw [h] at hle
        simp only [List.length_cons] at hle
        omega
    cases m with
    | zero => rfl
    | succ m =>
      rw [List.take_succ_cons, List.dropWhile_cons, if_neg (by simp [hp])]

theorem trimRight_take (x : List Char) :
    ∃ m, (x.reverse.dropWhile rustIsWhitespace).reverse = x.take m := by
  obtain ⟨k, hk⟩ := dropWhile_suffix x.reverse
  refine ⟨x.length - k, ?_⟩
  rw [hk, List.drop_reverse, List.reverse_reverse]

theorem rustTrimList_idem (l : List Char) :
    rustTrimList (rustTrimList l) = rustTrimList l := by
  unfold rustTrimList
  obtain ⟨m, hm⟩ := trimRight_take (l.dropWhile rustIsWhitespace)
  have h1 : (((l.dropWhile rustIsWhitespace).reverse.dropWhile
        rustIsWhitespace).reverse).dropWhile rustIsWhitespace
      = ((l.dropWhile rustIsWhitespace).reverse.dropWhile
        rustIsWhitespace).reverse := by
    rw [hm]
    exact dropWhile_take_stable (l.dropWhile rustIsWhitespace)
      (dropWhile_idem l) m
  rw [h1, List.reverse_reverse, dropWhile_idem]

/-! ### Claim theorems -/

/-- C1: for every hex string of even length whose characters are all hex
digits (case-insensitive), `hex_to_base32_nopad_upper` succeeds, its output
uses only the uppercase unpadded RFC 4648 Base32 alphabet (capital letters
and digits 2-7, never a padding `=`), and Base32-decoding the output gives
back exactly the bytes denoted by the hex input. -/
theorem hexToBase32_roundTrip (s : String)
    (h1 : s.toList.length % 2 = 0)
    (h2 : ∀ c ∈ s.toList, (hexDigitVal c).isSome = true) :
    ∃ out bytes,
      hex_to_base32_nopad_upper s = Except.ok out ∧
      hexDecodeList s.toList = some bytes ∧
      (∀ c ∈ out.toList, c ∈ base32Alphabet.toList) ∧
      (∀ c ∈ base32Alphabet.toList,
        ((65 ≤ c.toNat ∧ c.toNat ≤ 90) ∨ (50 ≤ c.toNat ∧ c.toNat ≤ 55)) ∧
          c ≠ Char.ofNat 61) ∧
      base32DecodeChars out = some bytes := by
  have htrim : rustTrimList s.toList = s.toList :=
    rustTrimList_eq_self s.toList
      (fun c hc => hexDigit_not_whitespace c (h2 c hc))
  obtain ⟨bytes, hdec, hlt⟩ :=
    hexDecodeList_ok s.toList.length s.toList le_rfl h1 h2
  refine ⟨base32EncodeBytes bytes, bytes, ?_, hdec, base32Encode_chars bytes,
    by decide, base32_roundTrip bytes hlt⟩
  unfold hex_to_base32_nopad_upper
  have ht : (rustTrim s).toList = s.toList := htrim
  rw [ht, hdec]

/-- Witness for C1 at the concrete hex input 1a2B. -/
theorem hexToBase32_roundTrip_witness :
    (("1a2B" : String).toList.length % 2 = 0 ∧
      (∀ c ∈ ("1a2B" : String).toList, (hexDigitVal c).isSome = true)) ∧
    ∃ out bytes,
      hex_to_base32_nopad_upper "1a2B" = Except.ok out ∧
      hexDecodeList ("1a2B" : String).toList = some bytes ∧
      (∀ c ∈ out.toList, c ∈ base32Alphabet.toList) ∧
      (∀ c ∈ base32Alphabet.toList,
        ((65 ≤ c.toNat ∧ c.toNat ≤ 90) ∨ (50 ≤ c.toNat ∧ c.toNat ≤ 55)) ∧
          c ≠ Char.ofNat 61) ∧
      base32DecodeChars out = some bytes :=
  ⟨⟨by decide, by decide⟩, hexToBase32_roundTrip "1a2B" (by decide) (by decide)⟩

/-- C2: buildOtpauthUri returns the fixed template with the serial and the
Base32 secret substituted verbatim (no escaping), and in particular maps
the documented example inputs to the documented example URI. -/
theorem build_otpauth_uri_spec :
    (∀ serial base32Secret : String,
      build_otpauth_uri serial base32Secret =
        "otpauth://totp/Battle.net:" ++ serial ++ "?secret=" ++ base32Secret ++
          "&issuer=Battle.net&digits=8&algorithm=SHA1&period=30") ∧
    build_otpauth_uri "1234-5678-9012" "JBSWY3DPEHPK3PXP" =
      "otpauth://totp/Battle.net:1234-5678-9012?secret=JBSWY3DPEHPK3PXP&issuer=Battle.net&digits=8&algorithm=SHA1&period=30" :=
  ⟨fun _ _ => rfl, by decide⟩

/-- C3: parse_json_response classifies in a fixed order: non-success status
first (status code plus truncated body, whatever the body is), then
non-JSON content type (shown as (missing) when empty), and only then the
JSON parse; a 401 with an HTML body is a status-401 error for every
deserialiser, never a parse error. -/
theorem parse_json_response_classification :
    (∀ (T : Type) (parse : String → Option T) (resp : HttpResponse)
        (label : String) (lim : Nat),
      statusIsSuccess resp.status = false →
        parse_json_response parse resp label lim =
          Except.error
            (ApiError.httpStatus label resp.status (truncate resp.body lim))) ∧
    (∀ (T : Type) (parse : String → Option T) (resp : HttpResponse)
        (label : String) (lim : Nat),
      statusIsSuccess resp.status = true →
      is_json_content_type resp.contentType = false →
        parse_json_response parse resp label lim =
          Except.error
            (ApiError.nonJson label (display_content_type resp.contentType)
              (truncate resp.body lim))) ∧
    (∀ (T : Type) (parse : String → Option T) (resp : HttpResponse)
        (label : String) (lim : Nat),
      statusIsSuccess resp.status = true →
      is_json_content_type resp.contentType = true →
      parse resp.body = none →
        parse_json_response parse resp label lim =
          Except.error (ApiError.parseFailure label)) ∧
    (∀ (T : Type) (parse : String → Option T) (resp : HttpResponse)
        (label : String) (lim : Nat) (value : T),
      statusIsSuccess resp.status = true →
      is_json_content_type resp.contentType = true →
      parse resp.body = some value →
        parse_json_response parse resp label lim = Except.ok value) ∧
    display_content_type "" = "(missing)" ∧
    (∀ parse : String → Option RestoreResponse,
      parse_json_response parse
          { status := 401, contentType := "text/html",
            body := "<html>Unauthorized</html>" } "restore request" 1000 =
        Except.error (ApiError.httpStatus "restore request" 401
          (truncate "<html>Unauthorized</html>" 1000))) := by
  refine ⟨?_, ?_, ?_, ?_, rfl, fun parse => rfl⟩
  · intro T parse resp label lim h
    simp [parse_json_response, h]
  · intro T parse resp label lim h1 h2
    simp [parse_json_response, h1, h2]
  · intro T parse resp label lim h1 h2 h3
    simp [parse_json_response, h1, h2, h3]
  · intro T parse resp label lim value h1 h2 h3
    simp [parse_json_response, h1, h2, h3]

/-- Witness for C3 at a concrete non-success response. -/
theorem parse_json_response_classification_witness :
    parse_json_response (fun _ => (none : Option SsoResponse))
        { status := 500, contentType := "", body := "oops" }
        "SSO token exchange" 500 =
      Except.error
        (ApiError.httpStatus "SSO token exchange" 500 (truncate "oops" 500)) :=
  parse_json_response_classification.1 SsoResponse (fun _ => none)
    { status := 500, contentType := "", body := "oops" }
    "SSO token exchange" 500 (by decide)

/-- C4: both operations insist on a present, non-blank field: when the
parsed SSO body has a missing, empty or whitespace-only access_token the
exchange fails with the missing-token error, and likewise for deviceSecret
in the restore; on success the returned value is the trimmed field. -/
theorem exchange_restore_required_fields :
    trimmedNonEmpty none = none ∧
    (∀ v : String, rustTrim v = "" → trimmedNonEmpty (some v) = none) ∧
    (∀ v : String, rustTrim v ≠ "" →
      trimmedNonEmpty (some v) = some (rustTrim v)) ∧
    (∀ (parse : String → Option SsoResponse) (bearer : Option String)
        (resp : HttpResponse) (parsed : SsoResponse),
      parse_json_response parse resp "SSO token exchange" 500 =
        Except.ok parsed →
      trimmedNonEmpty parsed.access_token = none →
        exchange_session_token parse bearer (some resp) =
          (Except.error
            (ApiError.missingField "SSO response did not include access_token"),
           bearer)) ∧
    (∀ (parse : String → Option SsoResponse) (bearer : Option String)
        (resp : HttpResponse) (parsed : SsoResponse) (token : String),
      parse_json_response parse resp "SSO token exchange" 500 =
        Except.ok parsed →
      trimmedNonEmpty parsed.access_token = some token →
        exchange_session_token parse bearer (some resp) =
          (Except.ok (), some token)) ∧
    (∀ (parse : String → Option RestoreResponse) (b serial rc : String)
        (resp : HttpResponse) (parsed : RestoreResponse),
      parse_json_response parse resp "restore request" 1000 =
        Except.ok parsed →
      trimmedNonEmpty parsed.device_secret = none →
        (restore_device_secret parse (some b) serial rc (some resp)).1 =
          Except.error
            (ApiError.missingField "restore response missing deviceSecret")) ∧
    (∀ (parse : String → Option RestoreResponse) (b serial rc : String)
        (resp : HttpResponse) (parsed : RestoreResponse) (secret : String),
      parse_json_response parse resp "restore request" 1000 =
        Except.ok parsed →
      trimmedNonEmpty parsed.device_secret = some secret →
        (restore_device_secret parse (some b) serial rc (some resp)).1 =
          Except.ok secret) := by
  refine ⟨rfl, ?_, ?_, ?_, ?_, ?_, ?_⟩
  · intro v h
    simp [trimmedNonEmpty, h]
  · intro v h
    simp [trimmedNonEmpty, h]
  · intro parse bearer resp parsed hp ht
    simp [exchange_session_token, hp, ht]
  · intro parse bearer resp parsed token hp ht
    simp [exchange_session_token, hp, ht]
  · intro parse b serial rc resp parsed hp ht
    simp [restore_device_secret, hp, ht]
  · intro parse b serial rc resp parsed secret hp ht
    simp [restore_device_secret, hp, ht]

/-- Witness for C4: a 200 JSON response whose access_token is the empty
string makes the exchange fail with the missing-token error. -/
theorem exchange_restore_required_fields_witness :
    exchange_session_token
        (fun _ => some ({ access_token := some "" } : SsoResponse)) none
        (some { status := 200, contentType := "application/json", body := "b" }) =
      (Except.error
        (ApiError.missingField "SSO response did not include access_token"),
       none) :=
  exchange_restore_required_fields.2.2.2.1
    (fun _ => some { access_token := some "" }) none
    { status := 200, contentType := "application/json", body := "b" }
    { access_token := some "" } rfl rfl

/-- C5: restoring with no bearer token set fails immediately with the
precondition error and issues no network request, for every deserialiser,
serial, restore code and would-be network outcome. -/
theorem restore_without_bearer_fails :
    ∀ (parse : String → Option RestoreResponse) (serial restoreCode : String)
      (net : Option HttpResponse),
      restore_device_secret parse none serial restoreCode net =
        (Except.error (ApiError.precondition
          "bearer token not set; SSO token exchange must run first"), []) :=
  fun _ _ _ _ => rfl

/-- C6: normalizeSessionToken trims surrounding whitespace and strips one
leading ST= or st=; an already-trimmed token with no such leading pattern
is left unchanged; the two documented examples hold.  The last three
conjuncts cover every input string: the trimmed form either starts with
ST=, starts with st=, or strips neither pattern, and in the last case the
result is exactly the trimmed input. -/
theorem normalize_session_token_spec :
    normalize_session_token "  ST=abc123  " = "abc123" ∧
    normalize_session_token "abc123" = "abc123" ∧
    (∀ s : String, rustTrimList s.toList = s.toList →
      stripLeading ("ST=".toList) s.toList = none →
      stripLeading ("st=".toList) s.toList = none →
      normalize_session_token s = s) ∧
    (∀ (s : String) (rest : List Char),
      rustTrimList s.toList = 'S' :: 'T' :: '=' :: rest →
      normalize_session_token s = String.mk (rustTrimList rest)) ∧
    (∀ (s : String) (rest : List Char),
      rustTrimList s.toList = 's' :: 't' :: '=' :: rest →
      normalize_session_token s = String.mk (rustTrimList rest)) ∧
    (∀ s : String,
      stripLeading ("ST=".toList) (rustTrimList s.toList) = none →
      stripLeading ("st=".toList) (rustTrimList s.toList) = none →
      normalize_session_token s = String.mk (rustTrimList s.toList)) := by
  refine ⟨by decide, by decide, ?_, ?_, ?_, ?_⟩
  · intro s h hn1 hn2
    simp only [normalize_session_token, h, hn1, hn2]
    exact stringMk_toList s
  · intro s rest h
    have hs : stripLeading ("ST=".toList) ('S' :: 'T' :: '=' :: rest) =
        some rest := rfl
    simp only [normalize_session_token, h, hs]
  · intro s rest h
    have hs1 : stripLeading ("ST=".toList) ('s' :: 't' :: '=' :: rest) =
        none := rfl
    have hs2 : stripLeading ("st=".toList) ('s' :: 't' :: '=' :: rest) =
        some rest := rfl
    simp only [normalize_session_token, h, hs1, hs2]
  · intro s hn1 hn2
    simp only [normalize_session_token, hn1, hn2]
    rw [rustTrimList_idem]

/-- Witness for C6: a bare token is left unchanged, and an untrimmed input
with no leading pattern is trimmed. -/
theorem normalize_session_token_spec_witness :
    normalize_session_token "tok3n" = "tok3n" ∧
    normalize_session_token "  abc  " = "abc" :=
  ⟨normalize_session_token_spec.2.2.1 "tok3n" rfl rfl rfl,
   normalize_session_token_spec.2.2.2.2.2 "  abc  " rfl rfl⟩

/-- C7: hexToBase32 returns an error whenever the trimmed input has odd
length or contains a character that is not a hex digit. -/
theorem hexToBase32_rejects_invalid (s : String)
    (h : (rustTrim s).toList.length % 2 = 1 ∨
      ∃ c ∈ (rustTrim s).toList, hexDigitVal c = none) :
    hex_to_base32_nopad_upper s =
      Except.error "deviceSecret is not valid hex" := by
  unfold hex_to_base32_nopad_upper
  rw [hexDecodeList_fails (rustTrim s).toList.length _ le_rfl h]

/-- Witness for C7 at the odd-length input abc. -/
theorem hexToBase32_rejects_invalid_witness :
    ((rustTrim "abc").toList.length % 2 = 1 ∨
      ∃ c ∈ (rustTrim "abc").toList, hexDigitVal c = none) ∧
    hex_to_base32_nopad_upper "abc" =
      Except.error "deviceSecret is not valid hex" :=
  ⟨Or.inl (by decide), hexToBase32_rejects_invalid "abc" (Or.inl (by decide))⟩

/-- C8: the diagnostic body is the character-cap truncation of the raw
body: always a prefix of at most the cap many characters, the identity when
the body fits, with cap 500 at the SSO call site and 1000 at the restore
call site. -/
theorem truncate_caps_spec :
    (∀ (text : String) (cap : Nat), (truncate text cap).toList <+: text.toList) ∧
    (∀ (text : String) (cap : Nat), (truncate text cap).toList.length ≤ cap) ∧
    (∀ (text : String) (cap : Nat), text.toList.length ≤ cap →
      truncate text cap = text) ∧
    (∀ (parse : String → Option SsoResponse) (bearer : Option String)
        (resp : HttpResponse),
      statusIsSuccess resp.status = false →
        exchange_session_token parse bearer (some resp) =
          (Except.error (ApiError.httpStatus "SSO token exchange" resp.status
            (truncate resp.body 500)), bearer)) ∧
    (∀ (parse : String → Option RestoreResponse) (b serial rc : String)
        (resp : HttpResponse),
      statusIsSuccess resp.status = false →
        (restore_device_secret parse (some b) serial rc (some resp)).1 =
          Except.error (ApiError.httpStatus "restore request" resp.status
            (truncate resp.body 1000))) := by
  refine ⟨?_, ?_, ?_, ?_, ?_⟩
  · intro text cap
    exact ⟨text.toList.drop cap, List.take_append_drop cap text.toList⟩
  · intro text cap
    show (text.toList.take cap).length ≤ cap
    rw [List.length_take]
    exact min_le_left _ _
  · intro text cap h
    show String.mk (text.toList.take cap) = text
    rw [List.take_of_length_le h]
    exact stringMk_toList text
  · intro parse bearer resp h
    simp [exchange_session_token, parse_json_response, h]
  · intro parse b serial rc resp h
    simp [restore_device_secret, parse_json_response, h]

/-- Witness for C8: a short body is returned whole. -/
theorem truncate_caps_spec_witness : truncate "ab" 500 = "ab" :=
  truncate_caps_spec.2.2.1 "ab" 500 (by decide)

/-- C9: the stored bearer token changes only on success: every failing
exchange leaves it at its previous value, and a successful exchange sets
it to the trimmed access_token of the parsed response. -/
theorem bearer_token_updated_only_on_success :
    (∀ (parse : String → Option SsoResponse) (bearer : Option String)
        (net : Option HttpResponse) (e : ApiError),
      (exchange_session_token parse bearer net).1 = Except.error e →
        (exchange_session_token parse bearer net).2 = bearer) ∧
    (∀ (parse : String → Option SsoResponse) (bearer : Option String)
        (net : Option HttpResponse),
      (exchange_session_token parse bearer net).1 = Except.ok () →
        ∃ resp parsed token, net = some resp ∧
          parse_json_response parse resp "SSO token exchange" 500 =
            Except.ok parsed ∧
          trimmedNonEmpty parsed.access_token = some token ∧
          (exchange_session_token parse bearer net).2 = some token) := by
  constructor
  · intro parse bearer net e h
    cases net with
    | none => rfl
    | some resp =>
      cases hp : parse_json_response parse resp "SSO token exchange" 500 with
      | error e2 => simp [exchange_session_token, hp]
      | ok parsed =>
        cases ht : trimmedNonEmpty parsed.access_token with
        | none => simp [exchange_session_token, hp, ht]
        | some token => simp [exchange_session_token, hp, ht] at h
  · intro parse bearer net h
    cases net with
    | none => simp [exchange_session_token] at h
    | some resp =>
      cases hp : parse_json_response parse resp "SSO token exchange" 500 with
      | error e2 => simp [exchange_session_token, hp] at h
      | ok parsed =>
        cases ht : trimmedNonEmpty parsed.access_token with
        | none => simp [exchange_session_token, hp, ht] at h
        | some token =>
          exact ⟨resp, parsed, token, rfl, hp, ht,
            by simp [exchange_session_token, hp, ht]⟩

/-- Witness for C9: a transport failure leaves the previous token in place. -/
theorem bearer_token_updated_only_on_success_witness :
    (exchange_session_token (fun _ => none) (some "old") none).2 = some "old" :=
  bearer_token_updated_only_on_success.1 (fun _ => none) (some "old") none
    (ApiError.transport "request failed for Battle.net SSO token exchange") rfl

/-- C10: hexToBase32 on the empty string, or on any input that trims to
empty, succeeds with the empty string; non-emptiness of the device secret
is not its concern and is enforced upstream by the restore response
validation. -/
theorem hexToBase32_empty_ok :
    hex_to_base32_nopad_upper "" = Except.ok "" ∧
    hex_to_base32_nopad_upper "   " = Except.ok "" ∧
    (∀ s : String, rustTrim s = "" →
      hex_to_base32_nopad_upper s = Except.ok "") ∧
    trimmedNonEmpty (some "") = none ∧
    (∀ (parse : String → Option RestoreResponse) (b serial rc : String)
        (resp : HttpResponse) (parsed : RestoreResponse),
      parse_json_response parse resp "restore request" 1000 =
        Except.ok parsed →
      trimmedNonEmpty parsed.device_secret = none →
        (restore_device_secret parse (some b) serial rc (some resp)).1 =
          Except.error
            (ApiError.missingField "restore response missing deviceSecret")) := by
  refine ⟨rfl, rfl, ?_, rfl, ?_⟩
  · intro s h
    have h2 : (rustTrim s).toList = [] := by
      rw [h]
      rfl
    unfold hex_to_base32_nopad_upper
    rw [h2]
    rfl
  · intro parse b serial rc resp parsed hp ht
    simp [restore_device_secret, hp, ht]

/-- Witness for C10: a whitespace-only input maps to the empty Base32
string, and a parsed response carrying an empty deviceSecret is rejected
upstream. -/
theorem hexToBase32_empty_ok_witness :
    hex_to_base32_nopad_upper "\t" = Except.ok "" ∧
    (restore_device_secret (fun _ => some { device_secret := some "" })
        (some "B") "S" "R"
        (some { status := 200, contentType := "application/json", body := "b" })).1 =
      Except.error (ApiError.missingField "restore response missing deviceSecret") :=
  ⟨hexToBase32_empty_ok.2.2.1 "\t" rfl,
   hexToBase32_empty_ok.2.2.2.2 (fun _ => some { device_secret := some "" })
     "B" "S" "R"
     { status := 200, contentType := "application/json", body := "b" }
     { device_secret := some "" } rfl rfl⟩

end BnetAuthExport
